import Mathlib

/-!
Verification of the transaction-engine ledger state machine.

The definitions below are a shallow embedding of `src/types.rs` and
`src/engine.rs`. Monetary amounts (`rust_decimal::Decimal` in the source)
are modelled as exact rationals; the per-account transaction logs
(`HashMap<TransactionIdentifier, Transaction>`) and the ledger
(`HashMap<ClientIdentifier, Account>`) are modelled as association lists
with overwrite-on-insert semantics, matching hash-map lookup behaviour.
-/

/-- `ValueAmount` (`rust_decimal::Decimal` in src/types.rs): exact decimal
arithmetic, modelled by the rationals. -/
abbrev ValueAmount := Rat

/-- `ClientIdentifier` (`u16` in src/types.rs); used only as a map key. -/
abbrev ClientIdentifier := Nat

/-- `TransactionIdentifier` (`u32` in src/types.rs); used only as a map key. -/
abbrev TransactionIdentifier := Nat

/-- `TransactionType` from src/types.rs. -/
inductive TransactionType where
  | DEPOSIT
  | WITHDRAWAL
  | CHARGEBACK
  | DISPUTE
  | RESOLVE
deriving DecidableEq, Repr

/-- `Transaction` from src/types.rs. -/
structure Transaction where
  transaction_type : TransactionType
  client_id : ClientIdentifier
  transaction_id : TransactionIdentifier
  transaction_amount : Option ValueAmount
deriving DecidableEq, Repr

/-- `ApplicationError` from src/types.rs (module `errors`). -/
inductive ApplicationError where
  | FileAccess (msg : String)
  | InvalidData (msg : String)
  | CSV (msg : String)
deriving DecidableEq, Repr

/-- `Account` from src/types.rs. The two logs are `HashMap`s in the source,
modelled as association lists. -/
structure Account where
  client_id : ClientIdentifier
  available : ValueAmount
  held : ValueAmount
  locked : Bool
  settled_transactions_log : List (TransactionIdentifier × Transaction)
  disputed_transactions_log : List (TransactionIdentifier × Transaction)
deriving DecidableEq, Repr

/-- `AccountView` from src/types.rs: the report-boundary projection. -/
structure AccountView where
  client_id : ClientIdentifier
  available : ValueAmount
  held : ValueAmount
  locked : Bool
  total : ValueAmount
deriving DecidableEq, Repr

/-- `impl From<Account> for AccountView` in src/types.rs. -/
def AccountView.fromAccount (value : Account) : AccountView :=
  { client_id := value.client_id
    available := value.available
    held := value.held
    total := value.available + value.held
    locked := value.locked }

/-- `HashMap::get` on an association list: the first binding of the key. -/
def mapLookup {α : Type} : List (Nat × α) → Nat → Option α
  | [], _ => none
  | (k2, v) :: rest, k => if k2 = k then some v else mapLookup rest k

/-- `HashMap::remove`, value part discarded: drop every binding of the key. -/
def mapErase {α : Type} : List (Nat × α) → Nat → List (Nat × α)
  | [], _ => []
  | (k2, v) :: rest, k => if k2 = k then mapErase rest k else (k2, v) :: mapErase rest k

/-- `HashMap::insert`: bind the key, overwriting any previous binding. -/
def mapInsert {α : Type} (l : List (Nat × α)) (k : Nat) (v : α) : List (Nat × α) :=
  (k, v) :: mapErase l k

/-- The ledger store: `HashMap<ClientIdentifier, Account>` in src/engine.rs. -/
abbrev Ledger := List (ClientIdentifier × Account)

/-- The fresh account built in `process_transaction` (src/engine.rs lines
70-80) when the client has no account yet. -/
def freshAccount (cid : ClientIdentifier) : Account :=
  { client_id := cid
    available := 0
    held := 0
    locked := false
    settled_transactions_log := []
    disputed_transactions_log := [] }

/-- The dispatch body of `process_transaction` (src/engine.rs lines 86-172):
the effect of one transaction record on the single account it touches.
In the source, `HashMap::remove` both returns the entry and deletes it;
here that is a `mapLookup` followed by `mapErase` on the same key. -/
def applyTransaction (account : Account) (incoming : Transaction) :
    Except ApplicationError Account :=
  match incoming.transaction_type with
  | TransactionType.DEPOSIT =>
    match incoming.transaction_amount with
    | some amount =>
      Except.ok { account with
        available := account.available + amount
        settled_transactions_log :=
          mapInsert account.settled_transactions_log incoming.transaction_id incoming }
    | none => Except.error (ApplicationError.InvalidData
        "Transaction amount value missing for deposit transaction type")
  | TransactionType.WITHDRAWAL =>
    match incoming.transaction_amount with
    | some amount =>
      let debited :=
        if account.available > amount then
          { account with available := account.available - amount }
        else account
      Except.ok { debited with
        settled_transactions_log :=
          mapInsert debited.settled_transactions_log incoming.transaction_id incoming }
    | none => Except.error (ApplicationError.InvalidData
        "Transaction amount value missing for withdrawal transaction type")
  | TransactionType.CHARGEBACK =>
    match mapLookup account.disputed_transactions_log incoming.transaction_id with
    | some dropped =>
      let account2 := { account with
        disputed_transactions_log :=
          mapErase account.disputed_transactions_log incoming.transaction_id }
      match dropped.transaction_amount with
      | some amount => Except.ok { account2 with held := account2.held - amount }
      | none => Except.ok account2
    | none => Except.ok account
  | TransactionType.DISPUTE =>
    match mapLookup account.settled_transactions_log incoming.transaction_id with
    | some unsettled =>
      let account2 := { account with
        settled_transactions_log :=
          mapErase account.settled_transactions_log incoming.transaction_id }
      match unsettled.transaction_amount with
      | some amount => Except.ok { account2 with
          disputed_transactions_log :=
            mapInsert account2.disputed_transactions_log unsettled.transaction_id unsettled
          available := account2.available - amount
          held := account2.held + amount }
      | none => Except.ok account2
    | none => Except.ok account
  | TransactionType.RESOLVE =>
    match mapLookup account.disputed_transactions_log incoming.transaction_id with
    | some resettled =>
      let account2 := { account with
        disputed_transactions_log :=
          mapErase account.disputed_transactions_log incoming.transaction_id }
      match resettled.transaction_amount with
      | some amount => Except.ok { account2 with
          settled_transactions_log :=
            mapInsert account2.settled_transactions_log resettled.transaction_id resettled
          available := account2.available + amount
          held := account2.held - amount }
      | none => Except.ok account2
    | none => Except.ok account

/-- `process_transaction` (src/engine.rs lines 62-177): look up or create the
account for the record, apply the record, and on success store the
updated account back into the ledger. An error returns early, before the
store-back, so the ledger is untouched on failure. -/
def processTransaction (account_data : Ledger) (incoming : Transaction) :
    Except ApplicationError Ledger :=
  let account :=
    match mapLookup account_data incoming.client_id with
    | none => freshAccount incoming.client_id
    | some account => account
  match applyTransaction account incoming with
  | Except.ok updated => Except.ok (mapInsert account_data updated.client_id updated)
  | Except.error e => Except.error e

/-- The processing loop of `run_transactions` (src/engine.rs lines 22-25):
each record is applied in order; a per-record error is discarded (the
`collect` result is ignored) and processing continues with the ledger as
it was before the failing record. -/
def runTransactions (account_data : Ledger) : List Transaction → Ledger
  | [] => account_data
  | t :: ts =>
    match processTransaction account_data t with
    | Except.ok updated => runTransactions updated ts
    | Except.error _ => runTransactions account_data ts

/-- The account a ledger holds for a client, defaulting to a fresh one. -/
def accountOf (account_data : Ledger) (cid : ClientIdentifier) : Account :=
  match mapLookup account_data cid with
  | none => freshAccount cid
  | some account => account

theorem mapLookup_erase_self {α : Type} (l : List (Nat × α)) (k : Nat) :
    mapLookup (mapErase l k) k = none := by
  induction l with
  | nil => rfl
  | cons p rest ih =>
    obtain ⟨k2, v⟩ := p
    by_cases h : k2 = k
    · simpa [mapErase, h] using ih
    · simpa [mapErase, h, mapLookup] using ih

theorem mapLookup_erase_ne {α : Type} (l : List (Nat × α)) (k k2 : Nat) (h : k ≠ k2) :
    mapLookup (mapErase l k) k2 = mapLookup l k2 := by
  induction l with
  | nil => rfl
  | cons p rest ih =>
    obtain ⟨k3, v⟩ := p
    by_cases h3 : k3 = k
    · subst h3
      simpa [mapErase, mapLookup, h] using ih
    · by_cases h4 : k3 = k2
      · simp [mapErase, h3, mapLookup, h4, Ne.symm h]
      · simpa [mapErase, h3, mapLookup, h4] using ih

theorem mapLookup_insert {α : Type} (l : List (Nat × α)) (k k2 : Nat) (v : α) :
    mapLookup (mapInsert l k v) k2 = if k = k2 then some v else mapLookup l k2 := by
  by_cases h : k = k2
  · simp [mapInsert, mapLookup, h]
  · simp [mapInsert, mapLookup, h, mapLookup_erase_ne l k k2 h]

theorem mapErase_of_lookup_none {α : Type} (l : List (Nat × α)) (k : Nat)
    (h : mapLookup l k = none) : mapErase l k = l := by
  induction l with
  | nil => rfl
  | cons p rest ih =>
    obtain ⟨k2, v⟩ := p
    by_cases h2 : k2 = k
    · simp [mapLookup, h2] at h
    · simp [mapLookup, h2] at h
      simp [mapErase, h2, ih h]

theorem mapLookup_mem {α : Type} {l : List (Nat × α)} {k : Nat} {v : α}
    (h : mapLookup l k = some v) : (k, v) ∈ l := by
  induction l with
  | nil => simp [mapLookup] at h
  | cons p rest ih =>
    obtain ⟨k2, v2⟩ := p
    by_cases h2 : k2 = k
    · subst h2
      simp [mapLookup] at h
      simp [h]
    · simp [mapLookup, h2] at h
      exact List.mem_cons_of_mem _ (ih h)

/-- C3: applying a Chargeback whose transaction_id is bound in the disputed
log to a record carrying an amount removes that entry from the disputed log
without reinserting it anywhere, debits held by the amount, leaves available
unchanged (so available + held drops by the amount, strictly so for a
positive amount), and leaves the locked flag untouched. -/
theorem chargeback_removes_funds (a : Account) (t : Transaction) (tr : Transaction)
    (amt : ValueAmount)
    (htype : t.transaction_type = TransactionType.CHARGEBACK)
    (hlook : mapLookup a.disputed_transactions_log t.transaction_id = some tr)
    (hamt : tr.transaction_amount = some amt) :
    ∃ a2, applyTransaction a t = Except.ok a2 ∧
      mapLookup a2.disputed_transactions_log t.transaction_id = none ∧
      a2.settled_transactions_log = a.settled_transactions_log ∧
      a2.held = a.held - amt ∧
      a2.available = a.available ∧
      a2.available + a2.held = a.available + a.held - amt ∧
      (0 < amt → a2.available + a2.held < a.available + a.held) ∧
      a2.locked = a.locked := by
  refine ⟨{ a with
      disputed_transactions_log := mapErase a.disputed_transactions_log t.transaction_id
      held := a.held - amt },
    ?_, mapLookup_erase_self _ _, rfl, rfl, rfl, by ring, ?_, rfl⟩
  · simp [applyTransaction, htype, hlook, hamt]
  · intro h
    simp only
    linarith

def w3Record : Transaction :=
  { transaction_type := TransactionType.DEPOSIT, client_id := 7, transaction_id := 1,
    transaction_amount := some 0 }

def w3Account : Account :=
  { client_id := 7, available := 0, held := 0, locked := false,
    settled_transactions_log := [], disputed_transactions_log := [(1, w3Record)] }

def w3Chargeback : Transaction :=
  { transaction_type := TransactionType.CHARGEBACK, client_id := 7, transaction_id := 1,
    transaction_amount := none }

/-- Witness for C3 at a concrete account holding one disputed record. -/
theorem chargeback_removes_funds_witness :
    ∃ a2, applyTransaction w3Account w3Chargeback = Except.ok a2 ∧
      mapLookup a2.disputed_transactions_log w3Chargeback.transaction_id = none ∧
      a2.settled_transactions_log = w3Account.settled_transactions_log ∧
      a2.held = w3Account.held - 0 ∧
      a2.available = w3Account.available ∧
      a2.available + a2.held = w3Account.available + w3Account.held - 0 ∧
      (0 < (0 : ValueAmount) → a2.available + a2.held < w3Account.available + w3Account.held) ∧
      a2.locked = w3Account.locked :=
  chargeback_removes_funds w3Account w3Chargeback w3Record 0 rfl rfl rfl

/-- C4: a Withdrawal carrying an amount always succeeds and always records
itself in the settled log under its transaction_id; the balance is debited
exactly when available is strictly greater than the amount, and is left
unchanged (held included) when the amount is greater than or equal to
available, exact equality included. -/
theorem withdrawal_strict_threshold (a : Account) (t : Transaction) (amt : ValueAmount)
    (htype : t.transaction_type = TransactionType.WITHDRAWAL)
    (hamt : t.transaction_amount = some amt) :
    ∃ a2, applyTransaction a t = Except.ok a2 ∧
      (a.available > amt → a2.available = a.available - amt) ∧
      (amt ≥ a.available → a2.available = a.available ∧ a2.held = a.held) ∧
      a2.held = a.held ∧
      mapLookup a2.settled_transactions_log t.transaction_id = some t := by
  by_cases hgt : a.available > amt
  · refine ⟨{ a with
        available := a.available - amt
        settled_transactions_log := mapInsert a.settled_transactions_log t.transaction_id t },
      ?_, fun _ => rfl, fun hle => absurd hgt (not_lt.mpr hle), rfl, ?_⟩
    · simp [applyTransaction, htype, hamt, hgt]
    · simp [mapInsert, mapLookup]
  · refine ⟨{ a with
        settled_transactions_log := mapInsert a.settled_transactions_log t.transaction_id t },
      ?_, fun h => absurd h hgt, fun _ => ⟨rfl, rfl⟩, rfl, ?_⟩
    · simp [applyTransaction, htype, hamt, hgt]
    · simp [mapInsert, mapLookup]

def w4Withdrawal : Transaction :=
  { transaction_type := TransactionType.WITHDRAWAL, client_id := 1, transaction_id := 2,
    transaction_amount := some 0 }

/-- Witness for C4: withdrawing the exact available balance (0 of 0) on a
fresh account. -/
theorem withdrawal_strict_threshold_witness :
    ∃ a2, applyTransaction (freshAccount 1) w4Withdrawal = Except.ok a2 ∧
      ((freshAccount 1).available > 0 → a2.available = (freshAccount 1).available - 0) ∧
      ((0 : ValueAmount) ≥ (freshAccount 1).available →
        a2.available = (freshAccount 1).available ∧ a2.held = (freshAccount 1).held) ∧
      a2.held = (freshAccount 1).held ∧
      mapLookup a2.settled_transactions_log w4Withdrawal.transaction_id = some w4Withdrawal :=
  withdrawal_strict_threshold (freshAccount 1) w4Withdrawal 0 rfl rfl

/-- C5: a Dispute whose transaction_id is not bound in the settled log, or a
Resolve or Chargeback whose transaction_id is not bound in the disputed log,
returns success and the account is returned entirely unchanged, every field
included. -/
theorem unknown_reference_noop (a : Account) (t : Transaction)
    (h : (t.transaction_type = TransactionType.DISPUTE ∧
            mapLookup a.settled_transactions_log t.transaction_id = none) ∨
         (t.transaction_type = TransactionType.RESOLVE ∧
            mapLookup a.disputed_transactions_log t.transaction_id = none) ∨
         (t.transaction_type = TransactionType.CHARGEBACK ∧
            mapLookup a.disputed_transactions_log t.transaction_id = none)) :
    applyTransaction a t = Except.ok a := by
  rcases h with ⟨ht, hl⟩ | ⟨ht, hl⟩ | ⟨ht, hl⟩ <;> simp [applyTransaction, ht, hl]

/-- Witness for C5: a Dispute referencing an id absent from a fresh account. -/
theorem unknown_reference_noop_witness :
    applyTransaction (freshAccount 1)
      { transaction_type := TransactionType.DISPUTE, client_id := 1, transaction_id := 5,
        transaction_amount := none } = Except.ok (freshAccount 1) :=
  unknown_reference_noop (freshAccount 1) _ (Or.inl ⟨rfl, rfl⟩)

/-- C2: if the settled log binds tx to a record carrying tx as its
transaction_id (as every insertion performed by the engine does) together
with an amount, then Dispute(tx) immediately followed by Resolve(tx) both
succeed, restore available and held exactly to their pre-Dispute values,
and leave tx bound in the settled log and absent from the disputed log. -/
theorem dispute_resolve_roundtrip (a : Account) (cid : ClientIdentifier)
    (tx : TransactionIdentifier) (tr : Transaction) (amt : ValueAmount)
    (hlook : mapLookup a.settled_transactions_log tx = some tr)
    (hkey : tr.transaction_id = tx)
    (hamt : tr.transaction_amount = some amt) :
    ∃ a1 a2,
      applyTransaction a
        { transaction_type := TransactionType.DISPUTE, client_id := cid,
          transaction_id := tx, transaction_amount := none } = Except.ok a1 ∧
      applyTransaction a1
        { transaction_type := TransactionType.RESOLVE, client_id := cid,
          transaction_id := tx, transaction_amount := none } = Except.ok a2 ∧
      a2.available = a.available ∧
      a2.held = a.held ∧
      mapLookup a2.settled_transactions_log tx = some tr ∧
      mapLookup a2.disputed_transactions_log tx = none := by
  subst hkey
  refine ⟨{ a with
      settled_transactions_log := mapErase a.settled_transactions_log tr.transaction_id
      disputed_transactions_log :=
        mapInsert a.disputed_transactions_log tr.transaction_id tr
      available := a.available - amt
      held := a.held + amt },
    { a with
      settled_transactions_log :=
        mapInsert (mapErase a.settled_transactions_log tr.transaction_id)
          tr.transaction_id tr
      disputed_transactions_log :=
        mapErase (mapInsert a.disputed_transactions_log tr.transaction_id tr)
          tr.transaction_id
      available := a.available - amt + amt
      held := a.held + amt - amt },
    ?_, ?_, by ring, by ring, by simp [mapLookup_insert], mapLookup_erase_self _ _⟩
  · simp [applyTransaction, hlook, hamt]
  · simp [applyTransaction, hamt, mapLookup_insert]

def w2Record : Transaction :=
  { transaction_type := TransactionType.DEPOSIT, client_id := 9, transaction_id := 4,
    transaction_amount := some 0 }

def w2Account : Account :=
  { client_id := 9, available := 0, held := 0, locked := false,
    settled_transactions_log := [(4, w2Record)], disputed_transactions_log := [] }

/-- Witness for C2 at a concrete account holding one settled record. -/
theorem dispute_resolve_roundtrip_witness :
    ∃ a1 a2,
      applyTransaction w2Account
        { transaction_type := TransactionType.DISPUTE, client_id := 9,
          transaction_id := 4, transaction_amount := none } = Except.ok a1 ∧
      applyTransaction a1
        { transaction_type := TransactionType.RESOLVE, client_id := 9,
          transaction_id := 4, transaction_amount := none } = Except.ok a2 ∧
      a2.available = w2Account.available ∧
      a2.held = w2Account.held ∧
      mapLookup a2.settled_transactions_log 4 = some w2Record ∧
      mapLookup a2.disputed_transactions_log 4 = none :=
  dispute_resolve_roundtrip w2Account 9 4 w2Record 0 rfl rfl rfl

/-- C6 (amended): when the consulted log binds the referenced transaction_id
to a record whose amount field is absent, the operation returns success and
the balances and locked flag are unchanged, but the found entry is removed
from the log it was found in and is not reinserted anywhere; the other log
is untouched. -/
theorem missing_amount_drops_entry (a : Account) (t : Transaction) (tr : Transaction)
    (h : (t.transaction_type = TransactionType.DISPUTE ∧
            mapLookup a.settled_transactions_log t.transaction_id = some tr) ∨
         ((t.transaction_type = TransactionType.RESOLVE ∨
             t.transaction_type = TransactionType.CHARGEBACK) ∧
            mapLookup a.disputed_transactions_log t.transaction_id = some tr))
    (hamt : tr.transaction_amount = none) :
    ∃ a2, applyTransaction a t = Except.ok a2 ∧
      a2.available = a.available ∧ a2.held = a.held ∧ a2.locked = a.locked ∧
      (t.transaction_type = TransactionType.DISPUTE →
        a2.settled_transactions_log = mapErase a.settled_transactions_log t.transaction_id ∧
        mapLookup a2.settled_transactions_log t.transaction_id = none ∧
        a2.disputed_transactions_log = a.disputed_transactions_log) ∧
      ((t.transaction_type = TransactionType.RESOLVE ∨
          t.transaction_type = TransactionType.CHARGEBACK) →
        a2.disputed_transactions_log = mapErase a.disputed_transactions_log t.transaction_id ∧
        mapLookup a2.disputed_transactions_log t.transaction_id = none ∧
        a2.settled_transactions_log = a.settled_transactions_log) := by
  rcases h with ⟨ht, hl⟩ | ⟨ht | ht, hl⟩
  · refine ⟨{ a with
        settled_transactions_log := mapErase a.settled_transactions_log t.transaction_id },
      by simp [applyTransaction, ht, hl, hamt], rfl, rfl, rfl,
      fun _ => ⟨rfl, mapLookup_erase_self _ _, rfl⟩, fun hc => ?_⟩
    rcases hc with hc | hc <;> exact absurd (ht.symm.trans hc) (by decide)
  · refine ⟨{ a with
        disputed_transactions_log := mapErase a.disputed_transactions_log t.transaction_id },
      by simp [applyTransaction, ht, hl, hamt], rfl, rfl, rfl,
      fun hc => absurd (ht.symm.trans hc) (by decide),
      fun _ => ⟨rfl, mapLookup_erase_self _ _, rfl⟩⟩
  · refine ⟨{ a with
        disputed_transactions_log := mapErase a.disputed_transactions_log t.transaction_id },
      by simp [applyTransaction, ht, hl, hamt], rfl, rfl, rfl,
      fun hc => absurd (ht.symm.trans hc) (by decide),
      fun _ => ⟨rfl, mapLookup_erase_self _ _, rfl⟩⟩

def corruptRecord : Transaction :=
  { transaction_type := TransactionType.DEPOSIT, client_id := 3, transaction_id := 1,
    transaction_amount := none }

def corruptAccount : Account :=
  { client_id := 3, available := 0, held := 0, locked := false,
    settled_transactions_log := [(1, corruptRecord)], disputed_transactions_log := [] }

def corruptAfter : Account :=
  { corruptAccount with settled_transactions_log := [] }

/-- C6 counterexample: a Dispute finding a settled entry whose amount is
absent does modify the account: the entry is silently removed from the
settled log instead of remaining present. -/
theorem missing_amount_entry_lost_counterexample :
    mapLookup corruptAccount.settled_transactions_log 1 = some corruptRecord ∧
    corruptRecord.transaction_amount = none ∧
    applyTransaction corruptAccount
      { transaction_type := TransactionType.DISPUTE, client_id := 3,
        transaction_id := 1, transaction_amount := none } = Except.ok corruptAfter ∧
    mapLookup corruptAfter.settled_transactions_log 1 = none ∧
    corruptAfter ≠ corruptAccount :=
  ⟨rfl, rfl, rfl, rfl, by decide⟩

/-- C7: a Deposit or Withdrawal whose amount field is absent makes
`process_transaction` fail with InvalidData before the account is stored
back, so the ledger is unchanged: no account is created or modified and no
log receives an entry; the processing loop then carries the old ledger
forward. -/
theorem missing_amount_rejected (account_data : Ledger) (t : Transaction)
    (htype : t.transaction_type = TransactionType.DEPOSIT ∨
             t.transaction_type = TransactionType.WITHDRAWAL)
    (hamt : t.transaction_amount = none) :
    (∃ msg, processTransaction account_data t =
        Except.error (ApplicationError.InvalidData msg)) ∧
    runTransactions account_data [t] = account_data := by
  rcases htype with ht | ht
  · exact ⟨⟨"Transaction amount value missing for deposit transaction type",
      by simp [processTransaction, applyTransaction, ht, hamt]⟩,
      by simp [runTransactions, processTransaction, applyTransaction, ht, hamt]⟩
  · exact ⟨⟨"Transaction amount value missing for withdrawal transaction type",
      by simp [processTransaction, applyTransaction, ht, hamt]⟩,
      by simp [runTransactions, processTransaction, applyTransaction, ht, hamt]⟩

def w7Deposit : Transaction :=
  { transaction_type := TransactionType.DEPOSIT, client_id := 1, transaction_id := 1,
    transaction_amount := none }

/-- Witness for C7: an amount-less Deposit against the empty ledger. -/
theorem missing_amount_rejected_witness :
    (∃ msg, processTransaction [] w7Deposit =
        Except.error (ApplicationError.InvalidData msg)) ∧
    runTransactions [] [w7Deposit] = [] :=
  missing_amount_rejected [] w7Deposit (Or.inl rfl) rfl

def overdraftSequence : List Transaction :=
  [{ transaction_type := TransactionType.DEPOSIT, client_id := 1, transaction_id := 1,
     transaction_amount := some 100 },
   { transaction_type := TransactionType.WITHDRAWAL, client_id := 1, transaction_id := 2,
     transaction_amount := some 60 },
   { transaction_type := TransactionType.DISPUTE, client_id := 1, transaction_id := 1,
     transaction_amount := none }]

/-- C10: the Dispute branch debits available without any sufficiency check:
after Deposit(tx 1, 100), Withdrawal(tx 2, 60), Dispute(tx 1) the available
balance is exactly -60, strictly negative. -/
theorem dispute_overdraws_available :
    (accountOf (runTransactions [] overdraftSequence) 1).available = -60 ∧
    (accountOf (runTransactions [] overdraftSequence) 1).available < 0 := by
  norm_num [overdraftSequence, runTransactions, processTransaction, applyTransaction,
    accountOf, mapLookup, mapInsert, mapErase, freshAccount]

theorem mem_of_mapErase {α : Type} {l : List (Nat × α)} {k : Nat} {p : Nat × α}
    (h : p ∈ mapErase l k) : p ∈ l := by
  induction l with
  | nil => simp [mapErase] at h
  | cons q rest ih =>
    obtain ⟨k2, v⟩ := q
    by_cases h2 : k2 = k
    · simp only [mapErase, if_pos h2] at h
      exact List.mem_cons_of_mem _ (ih h)
    · simp only [mapErase, if_neg h2, List.mem_cons] at h
      rcases h with h | h
      · simp [h]
      · exact List.mem_cons_of_mem _ (ih h)

theorem applyTransaction_ok_fields (a : Account) (t : Transaction) (a2 : Account)
    (h : applyTransaction a t = Except.ok a2) :
    a2.locked = a.locked ∧ a2.client_id = a.client_id := by
  cases htt : t.transaction_type <;>
    simp only [applyTransaction, htt] at h <;>
    (repeat' split at h)
  all_goals
    first
      | exact Except.noConfusion h
      | (injection h with h; subst h; exact ⟨rfl, rfl⟩)

/-- Every account stored in the ledger has its locked flag cleared. -/
def ledgerUnlocked (account_data : Ledger) : Bool :=
  account_data.all (fun p => !p.2.locked)

/-- The rows the report boundary would emit: `publish` (src/engine.rs line
187) builds an `AccountView` from each stored account. -/
def reportRows (account_data : Ledger) : List AccountView :=
  account_data.map (fun p => AccountView.fromAccount p.2)

theorem processTransaction_eq (account_data : Ledger) (t : Transaction) :
    processTransaction account_data t =
      match applyTransaction (accountOf account_data t.client_id) t with
      | Except.ok updated => Except.ok (mapInsert account_data updated.client_id updated)
      | Except.error e => Except.error e := rfl

theorem accountOf_unlocked (account_data : Ledger) (cid : ClientIdentifier)
    (hl : ledgerUnlocked account_data = true) :
    (accountOf account_data cid).locked = false := by
  unfold accountOf
  cases hlk : mapLookup account_data cid with
  | none => rfl
  | some a =>
    have hm := mapLookup_mem hlk
    have := List.all_eq_true.mp hl _ hm
    simpa using this

theorem processTransaction_unlocked (account_data : Ledger) (t : Transaction)
    (l2 : Ledger) (hl : ledgerUnlocked account_data = true)
    (h : processTransaction account_data t = Except.ok l2) :
    ledgerUnlocked l2 = true := by
  rw [processTransaction_eq] at h
  cases ha : applyTransaction (accountOf account_data t.client_id) t with
  | error e => rw [ha] at h; cases h
  | ok updated =>
    rw [ha] at h
    injection h with h2
    subst h2
    have hupd : updated.locked = false :=
      ((applyTransaction_ok_fields _ _ _ ha).1).trans
        (accountOf_unlocked account_data t.client_id hl)
    apply List.all_eq_true.mpr
    intro p hp
    rcases List.mem_cons.mp hp with hp | hp
    · subst hp; simpa using hupd
    · exact List.all_eq_true.mp hl _ (mem_of_mapErase hp)

theorem runTransactions_unlocked (ts : List Transaction) :
    ∀ account_data : Ledger, ledgerUnlocked account_data = true →
      ledgerUnlocked (runTransactions account_data ts) = true := by
  induction ts with
  | nil => intro l h; exact h
  | cons t ts ih =>
    intro l h
    unfold runTransactions
    cases hp : processTransaction l t with
    | error e => exact ih l h
    | ok l2 => exact ih l2 (processTransaction_unlocked l t l2 h hp)

/-- C9: no branch of the processor writes the locked field and fresh accounts
start unlocked, so after processing any sequence of transactions from the
empty ledger every stored account and every report row it would export has
locked = false. -/
theorem locked_never_set (ts : List Transaction) :
    ledgerUnlocked (runTransactions [] ts) = true ∧
    (reportRows (runTransactions [] ts)).all (fun v => !v.locked) = true := by
  have h := runTransactions_unlocked ts [] rfl
  refine ⟨h, ?_⟩
  apply List.all_eq_true.mpr
  intro v hv
  rw [reportRows, List.mem_map] at hv
  obtain ⟨p, hp, rfl⟩ := hv
  have := List.all_eq_true.mp h _ hp
  simpa [AccountView.fromAccount] using this

/-- Sum of the amounts of the Deposit records in a sequence. -/
def sumDeposits : List Transaction → ValueAmount
  | [] => 0
  | t :: ts =>
    (match t.transaction_type, t.transaction_amount with
     | TransactionType.DEPOSIT, some amount => amount
     | _, _ => 0) + sumDeposits ts

/-- Sum of the amounts of the Withdrawal records in a sequence. -/
def sumWithdrawals : List Transaction → ValueAmount
  | [] => 0
  | t :: ts =>
    (match t.transaction_type, t.transaction_amount with
     | TransactionType.WITHDRAWAL, some amount => amount
     | _, _ => 0) + sumWithdrawals ts

/-- The C8 side condition: the sequence consists only of Deposits and
Withdrawals carrying amounts, and every withdrawal amount is strictly
below the available balance at the moment it is applied (starting from
the given balance). -/
def fundedCashSequence (avail : ValueAmount) : List Transaction → Bool
  | [] => true
  | t :: ts =>
    match t.transaction_type, t.transaction_amount with
    | TransactionType.DEPOSIT, some amount => fundedCashSequence (avail + amount) ts
    | TransactionType.WITHDRAWAL, some amount =>
      decide (amount < avail) && fundedCashSequence (avail - amount) ts
    | _, _ => false

/-- The processing loop restricted to the single account it keeps touching:
each record is applied, per-record errors are skipped. -/
def applySequence (account : Account) : List Transaction → Account
  | [] => account
  | t :: ts =>
    match applyTransaction account t with
    | Except.ok updated => applySequence updated ts
    | Except.error _ => applySequence account ts

theorem runTransactions_single_client (c : ClientIdentifier) (ts : List Transaction) :
    ∀ account_data : Ledger, (accountOf account_data c).client_id = c →
      (∀ t ∈ ts, t.client_id = c) →
      accountOf (runTransactions account_data ts) c =
        applySequence (accountOf account_data c) ts := by
  induction ts with
  | nil => intro l _ _; rfl
  | cons t ts ih =>
    intro l hcid hts
    have htc : t.client_id = c := hts t (List.mem_cons_self t ts)
    have hts2 : ∀ t2 ∈ ts, t2.client_id = c :=
      fun t2 h2 => hts t2 (List.mem_cons_of_mem t h2)
    unfold runTransactions applySequence
    rw [processTransaction_eq, htc]
    cases ha : applyTransaction (accountOf l c) t with
    | error e => exact ih l hcid hts2
    | ok updated =>
      have hcid2 : updated.client_id = c :=
        ((applyTransaction_ok_fields _ _ _ ha).2).trans hcid
      have hacc : accountOf (mapInsert l updated.client_id updated) c = updated := by
        unfold accountOf
        rw [hcid2, mapLookup_insert]
        simp
      rw [ih (mapInsert l updated.client_id updated) (by rw [hacc, hcid2]) hts2, hacc]

theorem applyTransaction_cash_held (a : Account) (t : Transaction) (a2 : Account)
    (ht : t.transaction_type = TransactionType.DEPOSIT ∨
          t.transaction_type = TransactionType.WITHDRAWAL)
    (h : applyTransaction a t = Except.ok a2) : a2.held = a.held := by
  rcases ht with ht | ht <;>
    simp only [applyTransaction, ht] at h <;>
    (repeat' split at h) <;>
    first
      | exact Except.noConfusion h
      | (injection h with h; subst h; rfl)

theorem applySequence_cash_held (ts : List Transaction) :
    ∀ a : Account, (∀ t ∈ ts, t.transaction_type = TransactionType.DEPOSIT ∨
        t.transaction_type = TransactionType.WITHDRAWAL) →
      (applySequence a ts).held = a.held := by
  induction ts with
  | nil => intro a _; rfl
  | cons t ts ih =>
    intro a hts
    have hts2 : ∀ t2 ∈ ts, t2.transaction_type = TransactionType.DEPOSIT ∨
        t2.transaction_type = TransactionType.WITHDRAWAL :=
      fun t2 h2 => hts t2 (List.mem_cons_of_mem t h2)
    unfold applySequence
    cases ha : applyTransaction a t with
    | error e => exact ih a hts2
    | ok updated =>
      rw [ih updated hts2]
      exact applyTransaction_cash_held a t updated (hts t (List.mem_cons_self t ts)) ha

theorem fundedCashSequence_cash (ts : List Transaction) :
    ∀ v : ValueAmount, fundedCashSequence v ts = true →
      ∀ t ∈ ts, t.transaction_type = TransactionType.DEPOSIT ∨
        t.transaction_type = TransactionType.WITHDRAWAL := by
  induction ts with
  | nil => intro v _ t ht; simp at ht
  | cons t2 ts ih =>
    intro v hf t ht
    rcases List.mem_cons.mp ht with rfl | hmem
    · cases htt : t.transaction_type <;> cases hamt : t.transaction_amount <;>
        simp only [fundedCashSequence, htt, hamt] at hf <;>
        first
          | exact Or.inl rfl
          | exact Or.inr rfl
          | exact Bool.noConfusion hf
    · cases htt : t2.transaction_type <;> cases hamt : t2.transaction_amount <;>
        simp only [fundedCashSequence, htt, hamt] at hf <;>
        first
          | exact ih _ hf t hmem
          | (simp only [Bool.and_eq_true] at hf; exact ih _ hf.2 t hmem)
          | exact Bool.noConfusion hf

theorem applySequence_cash_available (ts : List Transaction) :
    ∀ a : Account, fundedCashSequence a.available ts = true →
      (applySequence a ts).available =
        a.available + sumDeposits ts - sumWithdrawals ts := by
  induction ts with
  | nil => intro a _; simp [applySequence, sumDeposits, sumWithdrawals]
  | cons t ts ih =>
    intro a hf
    obtain ⟨ttype, tcid, ttx, tamt⟩ := t
    cases ttype with
    | DEPOSIT =>
      cases tamt with
      | none => exact absurd hf (by simp [fundedCashSequence])
      | some amount =>
        have hf2 : fundedCashSequence (a.available + amount) ts = true := by
          simpa [fundedCashSequence] using hf
        have happ : applySequence a
            ({ transaction_type := TransactionType.DEPOSIT, client_id := tcid,
               transaction_id := ttx, transaction_amount := some amount } :: ts) =
            applySequence { a with
              available := a.available + amount
              settled_transactions_log := mapInsert a.settled_transactions_log ttx
                { transaction_type := TransactionType.DEPOSIT, client_id := tcid,
                  transaction_id := ttx, transaction_amount := some amount } } ts := by
          simp [applySequence, applyTransaction]
        rw [happ, ih _ hf2]
        simp only [sumDeposits, sumWithdrawals]
        ring
    | WITHDRAWAL =>
      cases tamt with
      | none => exact absurd hf (by simp [fundedCashSequence])
      | some amount =>
        have hf2 : amount < a.available ∧
            fundedCashSequence (a.available - amount) ts = true := by
          simpa [fundedCashSequence] using hf
        have happ : applySequence a
            ({ transaction_type := TransactionType.WITHDRAWAL, client_id := tcid,
               transaction_id := ttx, transaction_amount := some amount } :: ts) =
            applySequence { a with
              available := a.available - amount
              settled_transactions_log := mapInsert a.settled_transactions_log ttx
                { transaction_type := TransactionType.WITHDRAWAL, client_id := tcid,
                  transaction_id := ttx, transaction_amount := some amount } } ts := by
          simp [applySequence, applyTransaction, hf2.1]
        rw [happ, ih _ hf2.2]
        simp only [sumDeposits, sumWithdrawals]
        ring
    | CHARGEBACK => exact absurd hf (by simp [fundedCashSequence])
    | DISPUTE => exact absurd hf (by simp [fundedCashSequence])
    | RESOLVE => exact absurd hf (by simp [fundedCashSequence])

/-- C8: for a single-client sequence of Deposits and Withdrawals with
amounts, in which every withdrawal is strictly covered by the running
available balance, the final available balance equals the sum of deposits
minus the sum of withdrawals, and held stays 0 after every prefix. -/
theorem cash_sequence_sum (c : ClientIdentifier) (ts : List Transaction) (n : Nat)
    (hts : ∀ t ∈ ts, t.client_id = c)
    (hf : fundedCashSequence 0 ts = true) :
    (accountOf (runTransactions [] ts) c).available =
      sumDeposits ts - sumWithdrawals ts ∧
    (accountOf (runTransactions [] (ts.take n)) c).held = 0 := by
  have hcash : ∀ t ∈ ts, t.transaction_type = TransactionType.DEPOSIT ∨
      t.transaction_type = TransactionType.WITHDRAWAL :=
    fundedCashSequence_cash ts 0 hf
  have hbase : accountOf ([] : Ledger) c = freshAccount c := rfl
  constructor
  · rw [runTransactions_single_client c ts [] rfl hts, hbase,
      applySequence_cash_available ts (freshAccount c) hf]
    simp [freshAccount]
  · rw [runTransactions_single_client c (ts.take n) [] rfl
      (fun t h2 => hts t ((List.take_sublist n ts).subset h2)), hbase]
    exact applySequence_cash_held (ts.take n) (freshAccount c)
      (fun t h2 => hcash t ((List.take_sublist n ts).subset h2))

def w8Sequence : List Transaction :=
  [{ transaction_type := TransactionType.DEPOSIT, client_id := 1, transaction_id := 1,
     transaction_amount := some 0 }]

/-- Witness for C8: a one-deposit sequence for client 1. -/
theorem cash_sequence_sum_witness :
    (accountOf (runTransactions [] w8Sequence) 1).available =
      sumDeposits w8Sequence - sumWithdrawals w8Sequence ∧
    (accountOf (runTransactions [] (w8Sequence.take 1)) 1).held = 0 :=
  cash_sequence_sum 1 w8Sequence 1 (by simp [w8Sequence]) rfl

/-- The settled log of an account binds no transaction_id that the disputed
log also binds. -/
def logsDisjoint (a : Account) : Bool :=
  a.settled_transactions_log.all
    (fun p => (mapLookup a.disputed_transactions_log p.1).isNone)

/-- The transaction_ids of the amount-bearing (Deposit/Withdrawal) records
of a sequence, in order. -/
def amountBearingIds : List Transaction → List TransactionIdentifier
  | [] => []
  | t :: ts =>
    match t.transaction_type with
    | TransactionType.DEPOSIT => t.transaction_id :: amountBearingIds ts
    | TransactionType.WITHDRAWAL => t.transaction_id :: amountBearingIds ts
    | _ => amountBearingIds ts

def reuseSequence : List Transaction :=
  [{ transaction_type := TransactionType.DEPOSIT, client_id := 1, transaction_id := 1,
     transaction_amount := some 100 },
   { transaction_type := TransactionType.DISPUTE, client_id := 1, transaction_id := 1,
     transaction_amount := none },
   { transaction_type := TransactionType.DEPOSIT, client_id := 1, transaction_id := 1,
     transaction_amount := some 50 }]

/-- C1 counterexample: a Deposit reusing a transaction_id that currently
sits in the disputed log leaves that id present in both logs at once. -/
theorem partition_claim_counterexample :
    (mapLookup (accountOf (runTransactions [] reuseSequence) 1).settled_transactions_log
      1).isSome = true ∧
    (mapLookup (accountOf (runTransactions [] reuseSequence) 1).disputed_transactions_log
      1).isSome = true ∧
    logsDisjoint (accountOf (runTransactions [] reuseSequence) 1) = false :=
  ⟨rfl, rfl, rfl⟩

/-- Well-formedness carried through the C1 induction: every log entry is
keyed by its record's transaction_id, every key was introduced by some
already-seen amount-bearing record, and no settled key is also disputed. -/
def accountLogsWF (a : Account) (used : List TransactionIdentifier) : Prop :=
  (∀ p ∈ a.settled_transactions_log,
      (p : TransactionIdentifier × Transaction).2.transaction_id = p.1 ∧ p.1 ∈ used ∧
      mapLookup a.disputed_transactions_log p.1 = none) ∧
  (∀ p ∈ a.disputed_transactions_log,
      (p : TransactionIdentifier × Transaction).2.transaction_id = p.1 ∧ p.1 ∈ used)

/-- `accountLogsWF` for every account stored in the ledger. -/
def ledgerLogsWF (account_data : Ledger) (used : List TransactionIdentifier) : Prop :=
  ∀ cid a, mapLookup account_data cid = some a → accountLogsWF a used

theorem mapErase_key_ne {α : Type} {l : List (Nat × α)} {k : Nat} {p : Nat × α}
    (h : p ∈ mapErase l k) : p.1 ≠ k := by
  induction l with
  | nil => simp [mapErase] at h
  | cons q rest ih =>
    obtain ⟨k2, v⟩ := q
    by_cases h2 : k2 = k
    · simp only [mapErase, if_pos h2] at h
      exact ih h
    · simp only [mapErase, if_neg h2, List.mem_cons] at h
      rcases h with rfl | h
      · exact h2
      · exact ih h

theorem accountLogsWF_mono (a : Account) (u1 u2 : List TransactionIdentifier)
    (hsub : ∀ i ∈ u1, i ∈ u2) (h : accountLogsWF a u1) : accountLogsWF a u2 :=
  ⟨fun p hp => ⟨(h.1 p hp).1, hsub _ (h.1 p hp).2.1, (h.1 p hp).2.2⟩,
   fun p hp => ⟨(h.2 p hp).1, hsub _ (h.2 p hp).2⟩⟩


theorem accountLogsWF_insert_settled (a : Account) (t : Transaction) (b : Account)
    (used : List TransactionIdentifier) (hwf : accountLogsWF a used)
    (hfresh : t.transaction_id ∉ used)
    (hs : b.settled_transactions_log =
      mapInsert a.settled_transactions_log t.transaction_id t)
    (hd : b.disputed_transactions_log = a.disputed_transactions_log) :
    accountLogsWF b (t.transaction_id :: used) := by
  have hdisp : mapLookup a.disputed_transactions_log t.transaction_id = none := by
    cases hlk : mapLookup a.disputed_transactions_log t.transaction_id with
    | none => rfl
    | some tr => exact absurd (hwf.2 _ (mapLookup_mem hlk)).2 hfresh
  constructor
  · intro p hp
    rw [hs] at hp
    rcases List.mem_cons.mp hp with rfl | hp
    · exact ⟨rfl, List.mem_cons_self _ _, by rw [hd]; exact hdisp⟩
    · obtain ⟨h1, h2, h3⟩ := hwf.1 p (mem_of_mapErase hp)
      exact ⟨h1, List.mem_cons_of_mem _ h2, by rw [hd]; exact h3⟩
  · intro p hp
    rw [hd] at hp
    obtain ⟨h1, h2⟩ := hwf.2 p hp
    exact ⟨h1, List.mem_cons_of_mem _ h2⟩

theorem applyTransaction_logsWF_cash (a : Account) (t : Transaction) (a2 : Account)
    (used : List TransactionIdentifier) (hwf : accountLogsWF a used)
    (ht : t.transaction_type = TransactionType.DEPOSIT ∨
          t.transaction_type = TransactionType.WITHDRAWAL)
    (hfresh : t.transaction_id ∉ used)
    (h : applyTransaction a t = Except.ok a2) :
    accountLogsWF a2 (t.transaction_id :: used) := by
  rcases ht with ht | ht
  · cases hamt : t.transaction_amount with
    | none => simp [applyTransaction, ht, hamt] at h
    | some amount =>
      simp only [applyTransaction, ht, hamt] at h
      injection h with h
      subst h
      exact accountLogsWF_insert_settled a t _ used hwf hfresh rfl rfl
  · cases hamt : t.transaction_amount with
    | none => simp [applyTransaction, ht, hamt] at h
    | some amount =>
      simp only [applyTransaction, ht, hamt] at h
      injection h with h
      subst h
      refine accountLogsWF_insert_settled a t _ used hwf hfresh ?_ ?_
      · split <;> rfl
      · split <;> rfl

theorem applyTransaction_logsWF_ref (a : Account) (t : Transaction) (a2 : Account)
    (used : List TransactionIdentifier) (hwf : accountLogsWF a used)
    (ht : t.transaction_type = TransactionType.CHARGEBACK ∨
          t.transaction_type = TransactionType.DISPUTE ∨
          t.transaction_type = TransactionType.RESOLVE)
    (h : applyTransaction a t = Except.ok a2) :
    accountLogsWF a2 used := by
  rcases ht with ht | ht | ht
  · -- CHARGEBACK: at most an erase on the disputed log
    simp only [applyTransaction, ht] at h
    have key : ∀ b : Account,
        b.settled_transactions_log = a.settled_transactions_log →
        b.disputed_transactions_log =
          mapErase a.disputed_transactions_log t.transaction_id →
        accountLogsWF b used := by
      intro b hs hd
      constructor
      · intro p hp
        rw [hs] at hp
        obtain ⟨h1, h2, h3⟩ := hwf.1 p hp
        refine ⟨h1, h2, ?_⟩
        rw [hd]
        by_cases hk : p.1 = t.transaction_id
        · rw [hk]; exact mapLookup_erase_self _ _
        · rw [mapLookup_erase_ne _ _ _ (fun he => hk he.symm)]; exact h3
      · intro p hp
        rw [hd] at hp
        exact hwf.2 p (mem_of_mapErase hp)
    cases hlk : mapLookup a.disputed_transactions_log t.transaction_id with
    | none =>
      simp only [hlk] at h
      injection h with h
      subst h
      exact hwf
    | some dropped =>
      simp only [hlk] at h
      cases hamt : dropped.transaction_amount with
      | none =>
        simp only [hamt] at h
        injection h with h
        subst h
        exact key _ rfl rfl
      | some amount =>
        simp only [hamt] at h
        injection h with h
        subst h
        exact key _ rfl rfl
  · -- DISPUTE: settled entry moves to the disputed log
    simp only [applyTransaction, ht] at h
    cases hlk : mapLookup a.settled_transactions_log t.transaction_id with
    | none =>
      simp only [hlk] at h
      injection h with h
      subst h
      exact hwf
    | some unsettled =>
      obtain ⟨hkey, hmemu, hdn⟩ := hwf.1 _ (mapLookup_mem hlk)
      simp only [hlk] at h
      cases hamt : unsettled.transaction_amount with
      | none =>
        simp only [hamt] at h
        injection h with h
        subst h
        constructor
        · intro p hp
          obtain ⟨h1, h2, h3⟩ := hwf.1 p (mem_of_mapErase hp)
          exact ⟨h1, h2, h3⟩
        · intro p hp
          exact hwf.2 p hp
      | some amount =>
        simp only [hamt] at h
        injection h with h
        subst h
        constructor
        · intro p hp
          have hpk : p.1 ≠ t.transaction_id := mapErase_key_ne hp
          obtain ⟨h1, h2, h3⟩ := hwf.1 p (mem_of_mapErase hp)
          refine ⟨h1, h2, ?_⟩
          show mapLookup
            (mapInsert a.disputed_transactions_log unsettled.transaction_id unsettled)
            p.1 = none
          rw [hkey, mapLookup_insert, if_neg (fun he => hpk he.symm)]
          exact h3
        · intro p hp
          rcases List.mem_cons.mp hp with rfl | hp
          · exact ⟨rfl,
              by rw [show unsettled.transaction_id = t.transaction_id from hkey]
                 exact hmemu⟩
          · have hp2 : p ∈ a.disputed_transactions_log := by
              have := mem_of_mapErase (l := a.disputed_transactions_log)
                (k := unsettled.transaction_id) hp
              exact this
            exact hwf.2 p hp2
  · -- RESOLVE: disputed entry moves back to the settled log
    simp only [applyTransaction, ht] at h
    cases hlk : mapLookup a.disputed_transactions_log t.transaction_id with
    | none =>
      simp only [hlk] at h
      injection h with h
      subst h
      exact hwf
    | some resettled =>
      obtain ⟨hkey, hmemu⟩ := hwf.2 _ (mapLookup_mem hlk)
      simp only [hlk] at h
      cases hamt : resettled.transaction_amount with
      | none =>
        simp only [hamt] at h
        injection h with h
        subst h
        constructor
        · intro p hp
          obtain ⟨h1, h2, h3⟩ := hwf.1 p hp
          refine ⟨h1, h2, ?_⟩
          by_cases hk : p.1 = t.transaction_id
          · rw [hk]; exact mapLookup_erase_self _ _
          · rw [mapLookup_erase_ne _ _ _ (fun he => hk he.symm)]; exact h3
        · intro p hp
          exact hwf.2 p (mem_of_mapErase hp)
      | some amount =>
        simp only [hamt] at h
        injection h with h
        subst h
        constructor
        · intro p hp
          rcases List.mem_cons.mp hp with rfl | hp
          · refine ⟨rfl,
              by rw [show resettled.transaction_id = t.transaction_id from hkey]
                 exact hmemu, ?_⟩
            show mapLookup
              (mapErase a.disputed_transactions_log t.transaction_id)
              resettled.transaction_id = none
            rw [hkey]
            exact mapLookup_erase_self _ _
          · obtain ⟨h1, h2, h3⟩ := hwf.1 p (mem_of_mapErase hp)
            refine ⟨h1, h2, ?_⟩
            by_cases hk : p.1 = t.transaction_id
            · rw [hk]; exact mapLookup_erase_self _ _
            · rw [mapLookup_erase_ne _ _ _ (fun he => hk he.symm)]; exact h3
        · intro p hp
          exact hwf.2 p (mem_of_mapErase hp)

theorem accountOf_logsWF (account_data : Ledger) (cid : ClientIdentifier)
    (used : List TransactionIdentifier) (hwf : ledgerLogsWF account_data used) :
    accountLogsWF (accountOf account_data cid) used := by
  unfold accountOf
  cases hlk : mapLookup account_data cid with
  | none =>
    exact ⟨fun p hp => absurd hp (List.not_mem_nil p),
      fun p hp => absurd hp (List.not_mem_nil p)⟩
  | some a => exact hwf cid a hlk

theorem ledgerLogsWF_insert (account_data : Ledger) (used : List TransactionIdentifier)
    (b : Account) (k : Nat) (hl : ledgerLogsWF account_data used)
    (hb : accountLogsWF b used) :
    ledgerLogsWF (mapInsert account_data k b) used := by
  intro cid a ha
  rw [mapLookup_insert] at ha
  by_cases hk : k = cid
  · rw [if_pos hk] at ha
    injection ha with ha
    subst ha
    exact hb
  · rw [if_neg hk] at ha
    exact hl cid a ha

theorem ledgerLogsWF_mono (account_data : Ledger) (u1 u2 : List TransactionIdentifier)
    (hsub : ∀ i ∈ u1, i ∈ u2) (h : ledgerLogsWF account_data u1) :
    ledgerLogsWF account_data u2 :=
  fun cid a ha => accountLogsWF_mono a u1 u2 hsub (h cid a ha)

theorem processTransaction_logsWF_cash (account_data : Ledger) (t : Transaction)
    (l2 : Ledger) (used : List TransactionIdentifier)
    (hwf : ledgerLogsWF account_data used)
    (ht : t.transaction_type = TransactionType.DEPOSIT ∨
          t.transaction_type = TransactionType.WITHDRAWAL)
    (hfresh : t.transaction_id ∉ used)
    (h : processTransaction account_data t = Except.ok l2) :
    ledgerLogsWF l2 (t.transaction_id :: used) := by
  rw [processTransaction_eq] at h
  cases ha : applyTransaction (accountOf account_data t.client_id) t with
  | error e => rw [ha] at h; cases h
  | ok updated =>
    rw [ha] at h
    injection h with h
    subst h
    exact ledgerLogsWF_insert _ _ _ _
      (ledgerLogsWF_mono _ _ _ (fun i hi => List.mem_cons_of_mem _ hi) hwf)
      (applyTransaction_logsWF_cash _ t updated used
        (accountOf_logsWF account_data t.client_id used hwf) ht hfresh ha)

theorem processTransaction_logsWF_ref (account_data : Ledger) (t : Transaction)
    (l2 : Ledger) (used : List TransactionIdentifier)
    (hwf : ledgerLogsWF account_data used)
    (ht : t.transaction_type = TransactionType.CHARGEBACK ∨
          t.transaction_type = TransactionType.DISPUTE ∨
          t.transaction_type = TransactionType.RESOLVE)
    (h : processTransaction account_data t = Except.ok l2) :
    ledgerLogsWF l2 used := by
  rw [processTransaction_eq] at h
  cases ha : applyTransaction (accountOf account_data t.client_id) t with
  | error e => rw [ha] at h; cases h
  | ok updated =>
    rw [ha] at h
    injection h with h
    subst h
    exact ledgerLogsWF_insert _ _ _ _ hwf
      (applyTransaction_logsWF_ref _ t updated used
        (accountOf_logsWF account_data t.client_id used hwf) ht ha)

theorem runTransactions_logsWF (ts : List Transaction) :
    ∀ (account_data : Ledger) (used : List TransactionIdentifier),
      ledgerLogsWF account_data used →
      (∀ i ∈ amountBearingIds ts, i ∉ used) →
      (amountBearingIds ts).Nodup →
      ∃ used2, ledgerLogsWF (runTransactions account_data ts) used2 := by
  induction ts with
  | nil => intro l used hwf _ _; exact ⟨used, hwf⟩
  | cons t ts ih =>
    intro l used hwf hnotin hnodup
    unfold runTransactions
    by_cases hcash : t.transaction_type = TransactionType.DEPOSIT ∨
        t.transaction_type = TransactionType.WITHDRAWAL
    · have hids : amountBearingIds (t :: ts) =
          t.transaction_id :: amountBearingIds ts := by
        rcases hcash with ht | ht <;> simp [amountBearingIds, ht]
      rw [hids] at hnotin hnodup
      have hfresh : t.transaction_id ∉ used := hnotin _ (List.mem_cons_self _ _)
      cases hp : processTransaction l t with
      | error e =>
        exact ih l used hwf (fun i hi => hnotin i (List.mem_cons_of_mem _ hi))
          (List.nodup_cons.mp hnodup).2
      | ok l2 =>
        refine ih l2 (t.transaction_id :: used)
          (processTransaction_logsWF_cash l t l2 used hwf hcash hfresh hp) ?_
          (List.nodup_cons.mp hnodup).2
        intro i hi hmem
        rcases List.mem_cons.mp hmem with rfl | hiu
        · exact (List.nodup_cons.mp hnodup).1 hi
        · exact hnotin i (List.mem_cons_of_mem _ hi) hiu
    · have ht3 : t.transaction_type = TransactionType.CHARGEBACK ∨
          t.transaction_type = TransactionType.DISPUTE ∨
          t.transaction_type = TransactionType.RESOLVE := by
        cases htt : t.transaction_type
        · exact absurd (Or.inl htt) hcash
        · exact absurd (Or.inr htt) hcash
        · exact Or.inl rfl
        · exact Or.inr (Or.inl rfl)
        · exact Or.inr (Or.inr rfl)
      have hids : amountBearingIds (t :: ts) = amountBearingIds ts := by
        rcases ht3 with ht | ht | ht <;> simp [amountBearingIds, ht]
      rw [hids] at hnotin hnodup
      cases hp : processTransaction l t with
      | error e => exact ih l used hwf hnotin hnodup
      | ok l2 =>
        exact ih l2 used (processTransaction_logsWF_ref l t l2 used hwf ht3 hp)
          hnotin hnodup

/-- C1 (amended): provided the amount-bearing records of the processed
sequence carry pairwise distinct transaction_ids, every account in the
resulting ledger binds each transaction_id in at most one of its two logs.
Without that proviso the claim is false: a Deposit reusing a
transaction_id currently in the disputed log leaves the id present in
both logs (see the counterexample). -/
theorem partition_invariant_of_distinct_ids (ts : List Transaction)
    (hnodup : (amountBearingIds ts).Nodup) :
    ∀ cid a, mapLookup (runTransactions [] ts) cid = some a →
      logsDisjoint a = true := by
  obtain ⟨used2, hwf⟩ := runTransactions_logsWF ts [] []
    (fun cid a ha => Option.noConfusion ha)
    (fun i _ => List.not_mem_nil i)
    hnodup
  intro cid a ha
  apply List.all_eq_true.mpr
  intro p hp
  have h3 := ((hwf cid a ha).1 p hp).2.2
  simp [h3]

def w1Sequence : List Transaction :=
  [{ transaction_type := TransactionType.DEPOSIT, client_id := 1, transaction_id := 1,
     transaction_amount := some 0 }]

/-- Witness for the amended C1 at a one-deposit sequence. -/
theorem partition_invariant_witness :
    (amountBearingIds w1Sequence).Nodup ∧
    logsDisjoint (accountOf (runTransactions [] w1Sequence) 1) = true :=
  ⟨by decide,
   partition_invariant_of_distinct_ids w1Sequence (by decide) 1
     (accountOf (runTransactions [] w1Sequence) 1) rfl⟩

/-- Witness for the amended C6 at a concrete corrupt account. -/
theorem missing_amount_drops_entry_witness :
    ∃ a2, applyTransaction corruptAccount
        { transaction_type := TransactionType.DISPUTE, client_id := 3,
          transaction_id := 1, transaction_amount := none } = Except.ok a2 ∧
      a2.available = corruptAccount.available ∧
      a2.held = corruptAccount.held ∧
      a2.locked = corruptAccount.locked ∧
      (TransactionType.DISPUTE = TransactionType.DISPUTE →
        a2.settled_transactions_log =
          mapErase corruptAccount.settled_transactions_log 1 ∧
        mapLookup a2.settled_transactions_log 1 = none ∧
        a2.disputed_transactions_log = corruptAccount.disputed_transactions_log) ∧
      ((TransactionType.DISPUTE = TransactionType.RESOLVE ∨
          TransactionType.DISPUTE = TransactionType.CHARGEBACK) →
        a2.disputed_transactions_log =
          mapErase corruptAccount.disputed_transactions_log 1 ∧
        mapLookup a2.disputed_transactions_log 1 = none ∧
        a2.settled_transactions_log = corruptAccount.settled_transactions_log) :=
  missing_amount_drops_entry corruptAccount
    { transaction_type := TransactionType.DISPUTE, client_id := 3,
      transaction_id := 1, transaction_amount := none }
    corruptRecord (Or.inl ⟨rfl, rfl⟩) rfl
